import Mathlib

/-!
Verification of the advocate listing-and-search page
(`src/app/page.tsx`, consistent-lowercase revision).

The page holds two lists (`advocates`, `filteredAdvocates`) and a search
term.  The `onChange` handler filters the full list by substring match
over six fields; `onClick` resets; the initial effect fetches the data.
This file embeds that logic shallowly: JavaScript strings become Lean
`String` (a list of chars in this toolchain), `String.prototype.includes`
becomes an executable substring check, `toLowerCase` becomes per-char
ASCII lowercasing, and `Number.prototype.toString` on a non-negative
integer becomes the decimal digit string.
-/

/-- `isPrefOf p s` is true when `p` is a leading segment of `s`
(chars compared by `==`).  Used to build the substring check. -/
def isPrefOf : List Char → List Char → Bool
  | [], _ => true
  | _ :: _, [] => false
  | a :: as, b :: bs => a == b && isPrefOf as bs

/-- `isSubOf pat s` is true when `pat` occurs contiguously inside `s`.
This is the semantics of JavaScript `String.prototype.includes`. -/
def isSubOf (pat : List Char) : List Char → Bool
  | [] => pat.isEmpty
  | s@(_ :: rest) => isPrefOf pat s || isSubOf pat rest

/-- `includes s pat` models the JavaScript call `s.includes(pat)`. -/
def includes (s pat : String) : Bool := isSubOf pat.data s.data

/-- Models `String.prototype.toLowerCase` on the basic-latin range:
per-character lowercasing of the string's characters. -/
def toLowerStr (s : String) : String := String.mk (s.data.map Char.toLower)

/-- Models `String.prototype.toUpperCase` on the basic-latin range:
per-character uppercasing of the string's characters. -/
def toUpperStr (s : String) : String := String.mk (s.data.map Char.toUpper)

/-- Models `Number.prototype.toString()` on a non-negative integer:
its base-10 digit string. -/
def natToDecimalString (n : Nat) : String := String.mk (Nat.toDigits 10 n)

/-- The `Advocate` record type of `page.tsx` (a well-formed record:
every field used by the filter is present).  `createdAt` is modelled as
an abstract timestamp. -/
structure Advocate where
  id : Option Nat
  firstName : String
  lastName : String
  city : String
  degree : String
  specialties : List String
  yearsOfExperience : Nat
  phoneNumber : Nat
  createdAt : Option Nat
  deriving DecidableEq

/-- The filter predicate from the `onChange` handler:

`advocate.firstName.toLowerCase().includes(lowerSearchTerm) || ... ||
 advocate.specialties.some(s => s.toLowerCase().includes(lowerSearchTerm)) ||
 advocate.yearsOfExperience.toString().includes(value)`

with `lowerSearchTerm = value.toLowerCase()`.  Note the years field is
compared against the raw `value`, not the lowered one, exactly as in the
source. -/
def advocateMatches (advocate : Advocate) (value : String) : Bool :=
  let lowerSearchTerm := toLowerStr value
  includes (toLowerStr advocate.firstName) lowerSearchTerm ||
  includes (toLowerStr advocate.lastName) lowerSearchTerm ||
  includes (toLowerStr advocate.city) lowerSearchTerm ||
  includes (toLowerStr advocate.degree) lowerSearchTerm ||
  advocate.specialties.any (fun specialty =>
    includes (toLowerStr specialty) lowerSearchTerm) ||
  includes (natToDecimalString advocate.yearsOfExperience) value

/-- `advocates.filter(advocate => ...)` from the `onChange` handler. -/
def filterAdvocates (advocates : List Advocate) (value : String) : List Advocate :=
  advocates.filter (fun advocate => advocateMatches advocate value)

example : filterAdvocates [] "x" = [] := by decide

/-! ### Substring characterization -/

theorem isPrefOf_iff (p : List Char) : ∀ s : List Char,
    isPrefOf p s = true ↔ ∃ rest, s = p ++ rest := by
  induction p with
  | nil => intro s; simp [isPrefOf]
  | cons a as ih =>
    intro s
    cases s with
    | nil => simp [isPrefOf]
    | cons b bs =>
      simp only [isPrefOf, Bool.and_eq_true, beq_iff_eq, ih bs]
      constructor
      · rintro ⟨rfl, rest, rfl⟩; exact ⟨rest, rfl⟩
      · rintro ⟨rest, h⟩
        injection h with h1 h2
        exact ⟨h1.symm, rest, h2⟩

theorem isSubOf_iff (p : List Char) : ∀ s : List Char,
    isSubOf p s = true ↔ ∃ pre post, s = pre ++ p ++ post := by
  intro s
  induction s with
  | nil =>
    simp only [isSubOf, List.isEmpty_iff]
    constructor
    · rintro rfl; exact ⟨[], [], rfl⟩
    · rintro ⟨pre, post, h⟩
      rcases List.append_eq_nil.mp (List.append_eq_nil.mp h.symm).1 with ⟨-, h2⟩
      exact h2
  | cons c rest ih =>
    simp only [isSubOf, Bool.or_eq_true, isPrefOf_iff, ih]
    constructor
    · rintro (⟨r, hr⟩ | ⟨pre, post, rfl⟩)
      · exact ⟨[], r, by simpa using hr⟩
      · exact ⟨c :: pre, post, rfl⟩
    · rintro ⟨pre, post, h⟩
      cases pre with
      | nil => exact Or.inl ⟨post, by simpa using h⟩
      | cons d ds =>
        injection h with h1 h2
        exact Or.inr ⟨ds, post, h2⟩

theorem isSubOf_nil_left (s : List Char) : isSubOf [] s = true := by
  cases s <;> simp [isSubOf, isPrefOf]

/-- If a nonempty pattern occurs inside `s`, its head character is a
member of `s`. -/
theorem head_mem_of_isSubOf {c : Char} {cs s : List Char}
    (h : isSubOf (c :: cs) s = true) : c ∈ s := by
  rcases (isSubOf_iff _ s).mp h with ⟨pre, post, rfl⟩
  simp

/-! ### ASCII character classes and case lemmas -/

/-- The character is a basic-latin letter (the class JavaScript
`toLowerCase`/`toUpperCase` act on non-trivially within ASCII). -/
def IsAsciiAlpha (c : Char) : Prop :=
  (65 ≤ c.toNat ∧ c.toNat ≤ 90) ∨ (97 ≤ c.toNat ∧ c.toNat ≤ 122)

instance (c : Char) : Decidable (IsAsciiAlpha c) := by
  unfold IsAsciiAlpha; infer_instance

/-- The character is a decimal digit `0`-`9`. -/
def IsAsciiDigit (c : Char) : Prop := 48 ≤ c.toNat ∧ c.toNat ≤ 57

instance (c : Char) : Decidable (IsAsciiDigit c) := by
  unfold IsAsciiDigit; infer_instance

theorem not_digit_of_alpha {c : Char} (ha : IsAsciiAlpha c)
    (hd : IsAsciiDigit c) : False := by
  rcases ha with h | h <;> exact absurd hd.2 (by omega)

theorem toNat_ofNat_of_lt {n : Nat} (h : n < 55296) :
    (Char.ofNat n).toNat = n := by
  have hv : n.isValidChar := Or.inl h
  rw [Char.ofNat, dif_pos hv]
  simp [Char.ofNatAux, Char.toNat, UInt32.toNat]

theorem toNat_toLower (c : Char) :
    (Char.toLower c).toNat =
      if c.toNat ≥ 65 ∧ c.toNat ≤ 90 then c.toNat + 32 else c.toNat := by
  show (if c.toNat ≥ 65 ∧ c.toNat ≤ 90 then Char.ofNat (c.toNat + 32)
      else c).toNat = _
  by_cases h : c.toNat ≥ 65 ∧ c.toNat ≤ 90
  · rw [if_pos h, if_pos h, toNat_ofNat_of_lt (by omega)]
  · rw [if_neg h, if_neg h]

theorem toNat_toUpper (c : Char) :
    (Char.toUpper c).toNat =
      if c.toNat ≥ 97 ∧ c.toNat ≤ 122 then c.toNat - 32 else c.toNat := by
  show (if c.toNat ≥ 97 ∧ c.toNat ≤ 122 then Char.ofNat (c.toNat - 32)
      else c).toNat = _
  by_cases h : c.toNat ≥ 97 ∧ c.toNat ≤ 122
  · rw [if_pos h, if_pos h, toNat_ofNat_of_lt (by omega)]
  · rw [if_neg h, if_neg h]

theorem char_eq_of_toNat_eq {c d : Char} (h : c.toNat = d.toNat) : c = d := by
  have := congrArg Char.ofNat h
  rwa [Char.ofNat_toNat, Char.ofNat_toNat] at this

theorem toLower_toUpper_of_alpha {c : Char} (h : IsAsciiAlpha c) :
    Char.toLower (Char.toUpper c) = Char.toLower c := by
  apply char_eq_of_toNat_eq
  rw [toNat_toLower, toNat_toLower, toNat_toUpper]
  rcases h with h | h <;> split_ifs <;> omega

theorem toLower_toLower (c : Char) :
    Char.toLower (Char.toLower c) = Char.toLower c := by
  apply char_eq_of_toNat_eq
  rw [toNat_toLower, toNat_toLower]
  split_ifs <;> omega

theorem alpha_toLower {c : Char} (h : IsAsciiAlpha c) :
    IsAsciiAlpha (Char.toLower c) := by
  unfold IsAsciiAlpha at h ⊢
  rw [toNat_toLower]
  rcases h with h | h <;> split_ifs <;> omega

theorem alpha_toUpper {c : Char} (h : IsAsciiAlpha c) :
    IsAsciiAlpha (Char.toUpper c) := by
  unfold IsAsciiAlpha at h ⊢
  rw [toNat_toUpper]
  rcases h with h | h <;> split_ifs <;> omega

/-! ### The decimal string of a natural number is all digits -/

theorem digitChar_isDigit {m : Nat} (h : m < 10) :
    IsAsciiDigit (Nat.digitChar m) := by
  interval_cases m <;> decide

theorem toDigitsCore_digits :
    ∀ (fuel n : Nat) (ds : List Char), (∀ c ∈ ds, IsAsciiDigit c) →
      ∀ c ∈ Nat.toDigitsCore 10 fuel n ds, IsAsciiDigit c := by
  intro fuel
  induction fuel with
  | zero => intro n ds h c hc; exact h c hc
  | succ f ih =>
    intro n ds h c hc
    rw [Nat.toDigitsCore] at hc
    have hd : ∀ x ∈ Nat.digitChar (n % 10) :: ds, IsAsciiDigit x := by
      intro x hx
      rcases List.mem_cons.mp hx with rfl | hx
      · exact digitChar_isDigit (Nat.mod_lt _ (by omega))
      · exact h x hx
    by_cases hz : n / 10 = 0
    · rw [if_pos hz] at hc
      exact hd c hc
    · rw [if_neg hz] at hc
      exact ih (n / 10) _ hd c hc

theorem natToDecimalString_digits (n : Nat) :
    ∀ c ∈ (natToDecimalString n).data, IsAsciiDigit c := by
  intro c hc
  exact toDigitsCore_digits (n + 1) n [] (by simp) c hc

/-- A nonempty pattern of basic-latin letters never occurs inside a
string of decimal digits. -/
theorem isSubOf_alpha_in_digits {c : Char} {cs s : List Char}
    (hc : IsAsciiAlpha c) (hs : ∀ d ∈ s, IsAsciiDigit d) :
    isSubOf (c :: cs) s = false := by
  by_contra h
  have h' : isSubOf (c :: cs) s = true := by
    cases hb : isSubOf (c :: cs) s
    · exact absurd hb h
    · rfl
  exact not_digit_of_alpha hc (hs c (head_mem_of_isSubOf h'))

/-! ### String-level case lemmas -/

theorem toLowerStr_toUpperStr {t : String}
    (h : ∀ c ∈ t.data, IsAsciiAlpha c) :
    toLowerStr (toUpperStr t) = toLowerStr t := by
  unfold toLowerStr toUpperStr
  congr 1
  simp only [List.map_map]
  exact List.map_congr_left fun c hc =>
    toLower_toUpper_of_alpha (h c hc)

theorem toLowerStr_toLowerStr (t : String) :
    toLowerStr (toLowerStr t) = toLowerStr t := by
  unfold toLowerStr
  congr 1
  simp only [List.map_map]
  exact List.map_congr_left fun c _ => toLower_toLower c

/-! ### Per-record lemmas about the filter predicate -/

/-- The predicate only looks at the search term through its lowercased
form and through the years-of-experience containment check. -/
theorem advocateMatches_congr_term (r : Advocate) {u t : String}
    (hlow : toLowerStr u = toLowerStr t)
    (hyear : includes (natToDecimalString r.yearsOfExperience) u =
      includes (natToDecimalString r.yearsOfExperience) t) :
    advocateMatches r u = advocateMatches r t := by
  unfold advocateMatches
  rw [hlow, hyear]

/-- A nonempty all-letter search term cannot occur in the decimal
string of the years of experience. -/
theorem includes_decimal_eq_false {t : String} (y : Nat)
    (hne : t.data ≠ []) (h : ∀ c ∈ t.data, IsAsciiAlpha c) :
    includes (natToDecimalString y) t = false := by
  unfold includes
  cases ht : t.data with
  | nil => exact absurd ht hne
  | cons c cs =>
    exact isSubOf_alpha_in_digits
      (h c (by rw [ht]; exact List.mem_cons_self c cs))
      (natToDecimalString_digits y)

theorem advocateMatches_case_insensitive (r : Advocate) (t : String)
    (h : ∀ c ∈ t.data, IsAsciiAlpha c) :
    advocateMatches r (toUpperStr t) = advocateMatches r t ∧
    advocateMatches r (toLowerStr t) = advocateMatches r t := by
  by_cases hne : t.data = []
  · obtain ⟨d⟩ := t
    simp only at hne
    subst hne
    exact ⟨rfl, rfl⟩
  · have hup : (toUpperStr t).data ≠ [] := by
      unfold toUpperStr
      simpa using hne
    have hupa : ∀ c ∈ (toUpperStr t).data, IsAsciiAlpha c := by
      unfold toUpperStr
      intro c hc
      simp only [List.mem_map] at hc
      obtain ⟨d, hd, rfl⟩ := hc
      exact alpha_toUpper (h d hd)
    have hlo : (toLowerStr t).data ≠ [] := by
      unfold toLowerStr
      simpa using hne
    have hloa : ∀ c ∈ (toLowerStr t).data, IsAsciiAlpha c := by
      unfold toLowerStr
      intro c hc
      simp only [List.mem_map] at hc
      obtain ⟨d, hd, rfl⟩ := hc
      exact alpha_toLower (h d hd)
    constructor
    · exact advocateMatches_congr_term r (toLowerStr_toUpperStr h)
        (by rw [includes_decimal_eq_false _ hup hupa,
          includes_decimal_eq_false _ hne h])
    · exact advocateMatches_congr_term r (toLowerStr_toLowerStr t)
        (by rw [includes_decimal_eq_false _ hlo hloa,
          includes_decimal_eq_false _ hne h])

/-! ### Sample records (the end-to-end scenario of the spec) -/

def janeAdvocate : Advocate :=
  { id := some 1, firstName := "Jane", lastName := "Doe", city := "Austin",
    degree := "MD", specialties := ["Cardiology"], yearsOfExperience := 10,
    phoneNumber := 5551234567, createdAt := none }

def johnAdvocate : Advocate :=
  { id := none, firstName := "John", lastName := "Smith", city := "Boston",
    degree := "PhD", specialties := ["Neurology"], yearsOfExperience := 5,
    phoneNumber := 5559876543, createdAt := none }

def johnVeteran : Advocate :=
  { id := some 3, firstName := "Johanna", lastName := "Reyes", city := "Denver",
    degree := "MSW", specialties := ["Oncology"], yearsOfExperience := 15,
    phoneNumber := 5550001111, createdAt := some 1700000000 }

example : filterAdvocates [janeAdvocate, johnAdvocate] "bos" =
    [johnAdvocate] := by decide

example : filterAdvocates [janeAdvocate, johnAdvocate] "onco" =
    [] := by decide

/-! ### Spec-side substring predicates -/

/-- `pat` occurs in `s` as a contiguous substring (the spec's notion of
string containment). -/
def SubstrOf (pat s : String) : Prop :=
  ∃ pre post, s.data = pre ++ pat.data ++ post

/-- Case-insensitive containment: the lowercased pattern occurs in the
lowercased string. -/
def SubstrOfCI (pat s : String) : Prop :=
  SubstrOf (toLowerStr pat) (toLowerStr s)

theorem includes_iff_SubstrOf (s pat : String) :
    includes s pat = true ↔ SubstrOf pat s := by
  unfold includes SubstrOf
  exact isSubOf_iff pat.data s.data

/-! ### Claim theorems about the filter -/

/-- C1: a record is in the filter output iff it is in the input and at
least one of first name, last name, city, degree, some specialty
(case-insensitively) or the decimal string of the years of experience
contains the search string as a substring. -/
theorem filter_mem_iff_spec (L : List Advocate) (t : String) (r : Advocate) :
    r ∈ filterAdvocates L t ↔
      r ∈ L ∧
      (SubstrOfCI t r.firstName ∨ SubstrOfCI t r.lastName ∨
        SubstrOfCI t r.city ∨ SubstrOfCI t r.degree ∨
        (∃ s ∈ r.specialties, SubstrOfCI t s) ∨
        SubstrOf t (natToDecimalString r.yearsOfExperience)) := by
  unfold filterAdvocates
  rw [List.mem_filter]
  refine and_congr_right fun _ => ?_
  unfold advocateMatches SubstrOfCI
  simp only [Bool.or_eq_true, List.any_eq_true, includes_iff_SubstrOf,
    or_assoc]

/-- C2: for an all-letter search term, filtering with the term, its
uppercased form and its lowercased form give the same output list. -/
theorem filter_case_insensitive (L : List Advocate) (t : String)
    (h : ∀ c ∈ t.data, IsAsciiAlpha c) :
    filterAdvocates L t = filterAdvocates L (toUpperStr t) ∧
    filterAdvocates L t = filterAdvocates L (toLowerStr t) := by
  unfold filterAdvocates
  constructor
  · exact (List.filter_congr fun a _ =>
      (advocateMatches_case_insensitive a t h).1).symm
  · exact (List.filter_congr fun a _ =>
      (advocateMatches_case_insensitive a t h).2).symm

/-- Witness for C2 at a concrete list and the term `aUs`. -/
theorem filter_case_insensitive_witness :
    filterAdvocates [janeAdvocate, johnAdvocate] "aUs" =
      filterAdvocates [janeAdvocate, johnAdvocate] (toUpperStr "aUs") ∧
    filterAdvocates [janeAdvocate, johnAdvocate] "aUs" =
      filterAdvocates [janeAdvocate, johnAdvocate] (toLowerStr "aUs") :=
  filter_case_insensitive [janeAdvocate, johnAdvocate] "aUs" (by decide)

/-- The last disjunct of the predicate alone forces a match. -/
theorem advocateMatches_of_years (r : Advocate) (t : String)
    (h : includes (natToDecimalString r.yearsOfExperience) t = true) :
    advocateMatches r t = true := by
  unfold advocateMatches
  rw [h]
  simp

/-- C4: a record with fifteen years of experience is kept both for the
term `5` and for the term `15`, by containment in the decimal string. -/
theorem filter_years_fifteen (L : List Advocate) (r : Advocate)
    (hr : r ∈ L) (hy : r.yearsOfExperience = 15) :
    r ∈ filterAdvocates L "5" ∧ r ∈ filterAdvocates L "15" := by
  refine ⟨List.mem_filter.mpr ⟨hr, ?_⟩, List.mem_filter.mpr ⟨hr, ?_⟩⟩ <;>
    exact advocateMatches_of_years _ _ (by rw [hy]; decide)

/-- Witness for C4 at a concrete one-record list. -/
theorem filter_years_fifteen_witness :
    johnVeteran ∈ filterAdvocates [johnVeteran] "5" ∧
    johnVeteran ∈ filterAdvocates [johnVeteran] "15" :=
  filter_years_fifteen [johnVeteran] johnVeteran (by decide) (by decide)

/-- C5 counterexample: a whitespace-only search term does not return
the full list — the code has no whitespace special case, so a record
none of whose fields contains a space is dropped. -/
theorem filter_whitespace_cex :
    filterAdvocates [janeAdvocate] " " = [] ∧
    filterAdvocates [janeAdvocate] " " ≠ [janeAdvocate] := by
  constructor <;> decide

/-- C5 amended: the empty search term returns the list unchanged, and
filtering the empty list yields the empty list; a whitespace-only term
is treated like any other pattern. -/
theorem filter_empty_term_and_empty_list (L : List Advocate) (t : String) :
    filterAdvocates L "" = L ∧ filterAdvocates ([] : List Advocate) t = [] := by
  refine ⟨?_, rfl⟩
  apply List.filter_eq_self.mpr
  intro a _
  have h0 : (toLowerStr "").data = ([] : List Char) := rfl
  simp only [advocateMatches]
  rw [show includes (toLowerStr a.firstName) (toLowerStr "") = true from by
    unfold includes; rw [h0]; exact isSubOf_nil_left _]
  simp

/-- C6: the filter output is a sublist of the input, keeping the
original relative order. -/
theorem filter_sublist_of_input (L : List Advocate) (t : String) :
    List.Sublist (filterAdvocates L t) L :=
  List.filter_sublist L

/-! ### The predicate at the JavaScript level

The `Advocate` type annotation is not enforced at runtime: the payload
is stored unvalidated, so any field of a record may actually be the
value `undefined`.  Calling a method on `undefined` throws a
`TypeError`; `||` short-circuits, so a later field is only touched when
every earlier comparison came out false. -/

/-- A record as it may actually arrive from the unvalidated JSON
payload: every field may be missing (`none` models `undefined`). -/
structure AdvocateJS where
  id : Option Nat
  firstName : Option String
  lastName : Option String
  city : Option String
  degree : Option String
  specialties : Option (List String)
  yearsOfExperience : Option Nat
  phoneNumber : Option Nat
  createdAt : Option Nat
  deriving DecidableEq

/-- The `onChange` predicate evaluated with JavaScript semantics:
each field is dereferenced just before its method call, throwing
(`Except.error ()`) when the field is `undefined`, and `||`
short-circuits left to right. -/
def advocateMatchesJS (advocate : AdvocateJS) (value : String) :
    Except Unit Bool :=
  let lowerSearchTerm := toLowerStr value
  match advocate.firstName with
  | none => Except.error ()
  | some firstName =>
    if includes (toLowerStr firstName) lowerSearchTerm then Except.ok true else
    match advocate.lastName with
    | none => Except.error ()
    | some lastName =>
      if includes (toLowerStr lastName) lowerSearchTerm then Except.ok true else
      match advocate.city with
      | none => Except.error ()
      | some city =>
        if includes (toLowerStr city) lowerSearchTerm then Except.ok true else
        match advocate.degree with
        | none => Except.error ()
        | some degree =>
          if includes (toLowerStr degree) lowerSearchTerm then Except.ok true else
          match advocate.specialties with
          | none => Except.error ()
          | some specialties =>
            if specialties.any (fun specialty =>
                includes (toLowerStr specialty) lowerSearchTerm) then
              Except.ok true
            else
              match advocate.yearsOfExperience with
              | none => Except.error ()
              | some years =>
                Except.ok (includes (natToDecimalString years) value)

/-- `advocates.filter(...)` with a predicate that may throw: the first
throw aborts the whole call. -/
def filterAdvocatesJS : List AdvocateJS → String → Except Unit (List AdvocateJS)
  | [], _ => Except.ok []
  | a :: rest, value =>
    match advocateMatchesJS a value with
    | Except.error e => Except.error e
    | Except.ok b =>
      match filterAdvocatesJS rest value with
      | Except.error e => Except.error e
      | Except.ok tail => Except.ok (if b then a :: tail else tail)

/-- View of a well-formed record at the JavaScript level. -/
def advocateToJS (a : Advocate) : AdvocateJS :=
  { id := a.id, firstName := some a.firstName, lastName := some a.lastName,
    city := some a.city, degree := some a.degree,
    specialties := some a.specialties,
    yearsOfExperience := some a.yearsOfExperience,
    phoneNumber := some a.phoneNumber, createdAt := a.createdAt }

/-- A record whose `firstName` field is missing. -/
def malformedAdvocate : AdvocateJS :=
  { id := none, firstName := none, lastName := some "Doe",
    city := some "Austin", degree := some "MD",
    specialties := some ["Cardiology"], yearsOfExperience := some 10,
    phoneNumber := some 5551234567, createdAt := none }

/-- C3 counterexample: on a record missing a compared field the
predicate throws instead of treating the field as non-matching, and
the throw aborts the whole filter call. -/
theorem filterJS_missing_field_cex :
    advocateMatchesJS malformedAdvocate "zzz" = Except.error () ∧
    filterAdvocatesJS [malformedAdvocate] "zzz" = Except.error () := by
  constructor <;> rfl

/-- C3 amended: on a record with every compared field present the
predicate never throws, and returns exactly the decision of the pure
filter predicate. -/
theorem matchesJS_ok_of_wellformed (a : Advocate) (t : String) :
    advocateMatchesJS (advocateToJS a) t =
      Except.ok (advocateMatches a t) := by
  simp only [advocateMatchesJS, advocateToJS, advocateMatches]
  split_ifs <;> simp_all

/-! ### The component state and its event handlers -/

/-- The two lists and the search term held by the component, at the
JavaScript level: a list variable holds `undefined` (`none`) when an
unvalidated payload put `undefined` into state. -/
structure StoreStateJS where
  advocates : Option (List Advocate)
  filteredAdvocates : Option (List Advocate)
  searchTerm : String
  deriving DecidableEq

/-- Initial component state: both `useState` hooks start with the
empty array. -/
def initialStateJS : StoreStateJS :=
  { advocates := some [], filteredAdvocates := some [], searchTerm := "" }

/-- Outcome of `await fetch(...)` plus `await response.json()`: the
promise chain either rejects (network error, or a body that is not
JSON), or resolves to a parsed object whose `data` field may be
absent. -/
inductive FetchOutcome where
  | rejected
  | resolved (data : Option (List Advocate))
  deriving DecidableEq

/-- The `fetchAdvocates` effect: on resolution it stores
`jsonResponse.data` in both lists without any validation; on rejection
the `catch` block only logs, leaving the state untouched. -/
def fetchAdvocates (s : StoreStateJS) : FetchOutcome → StoreStateJS
  | FetchOutcome.rejected => s
  | FetchOutcome.resolved d => { s with advocates := d, filteredAdvocates := d }

/-- C7 counterexample: a payload that parses as JSON but carries no
`data` array is not treated as a failure — both lists are overwritten
with the undefined field instead of being left in their prior (empty)
state. -/
theorem fetch_malformed_payload_cex :
    fetchAdvocates initialStateJS (FetchOutcome.resolved none) ≠
      initialStateJS ∧
    (fetchAdvocates initialStateJS (FetchOutcome.resolved none)).advocates =
      none := by
  constructor <;> decide

/-- C7 amended: when the fetch or the JSON parse rejects, the catch
branch leaves the whole state — in particular both lists — unchanged. -/
theorem fetch_rejected_preserves_state (s : StoreStateJS) :
    fetchAdvocates s FetchOutcome.rejected = s := rfl

/-- The component state in the well-formed regime assumed by the
remaining handlers: both lists present. -/
structure StoreState where
  advocates : List Advocate
  filteredAdvocates : List Advocate
  searchTerm : String
  deriving DecidableEq

/-- The `onChange` input handler: stores the raw input value and
recomputes the display list from the full list and that value. -/
def onChange (s : StoreState) (value : String) : StoreState :=
  { s with searchTerm := value,
           filteredAdvocates := filterAdvocates s.advocates value }

/-- The `onClick` reset handler: clears the search term and restores
the display list to the full list. -/
def onClick (s : StoreState) : StoreState :=
  { s with searchTerm := "", filteredAdvocates := s.advocates }

/-- A successful fetch replaces both lists with the payload data. -/
def fetchSuccess (s : StoreState) (data : List Advocate) : StoreState :=
  { s with advocates := data, filteredAdvocates := data }

/-- The component's events. -/
inductive Event where
  | fetchOk (data : List Advocate)
  | searchInput (value : String)
  | reset
  deriving DecidableEq

/-- One step of the component's informal state machine. -/
def step (s : StoreState) : Event → StoreState
  | Event.fetchOk data => fetchSuccess s data
  | Event.searchInput value => onChange s value
  | Event.reset => onClick s

theorem foldl_onChange_advocates (vs : List String) :
    ∀ s : StoreState, (vs.foldl onChange s).advocates = s.advocates := by
  induction vs with
  | nil => intro s; rfl
  | cons v rest ih => intro s; exact ih (onChange s v)

/-- C8: after a successful fetch and any sequence of search inputs,
the reset click restores the display list to the fetched full list, in
its original order, and clears the search term. -/
theorem reset_restores_full_list (s : StoreState) (data : List Advocate)
    (searches : List String) :
    step (searches.foldl onChange (step s (Event.fetchOk data))) Event.reset =
      { advocates := data, filteredAdvocates := data, searchTerm := "" } := by
  have hadv :
      (searches.foldl onChange (step s (Event.fetchOk data))).advocates =
        data :=
    foldl_onChange_advocates searches _
  show onClick _ = _
  unfold onClick
  rw [hadv]

/-- C9: every event — fetch success, search input, reset — preserves
the invariant that each displayed record is a member of the full
list. -/
theorem display_subset_invariant (s : StoreState) (e : Event)
    (_h : ∀ r ∈ s.filteredAdvocates, r ∈ s.advocates) :
    ∀ r ∈ (step s e).filteredAdvocates, r ∈ (step s e).advocates := by
  cases e with
  | fetchOk data => intro r hr; exact hr
  | searchInput value =>
    intro r hr
    simp only [step, onChange, filterAdvocates] at hr ⊢
    exact (List.mem_filter.mp hr).1
  | reset => intro r hr; exact hr

/-- Witness for C9 at a concrete state, input event and record: after
searching `do`, Jane is displayed and indeed belongs to the full
list. -/
theorem display_subset_invariant_witness :
    janeAdvocate ∈ (step (StoreState.mk [janeAdvocate] [janeAdvocate] "")
      (Event.searchInput "do")).advocates :=
  display_subset_invariant (StoreState.mk [janeAdvocate] [janeAdvocate] "")
    (Event.searchInput "do") (by decide) janeAdvocate (by decide)

/-- C10: the predicate never reads `phoneNumber`, `id` or `createdAt`:
two records that agree on the six compared fields get the same
inclusion decision for every search term. -/
theorem matches_independent_of_hidden_fields (r1 r2 : Advocate) (t : String)
    (h1 : r1.firstName = r2.firstName) (h2 : r1.lastName = r2.lastName)
    (h3 : r1.city = r2.city) (h4 : r1.degree = r2.degree)
    (h5 : r1.specialties = r2.specialties)
    (h6 : r1.yearsOfExperience = r2.yearsOfExperience) :
    advocateMatches r1 t = advocateMatches r2 t := by
  unfold advocateMatches
  rw [h1, h2, h3, h4, h5, h6]

/-- Jane's record with a different phone number, no id, and a
timestamp: only the fields the filter never reads differ. -/
def janeOtherPhone : Advocate :=
  { janeAdvocate with
    id := none
    phoneNumber := 9998887777
    createdAt := some 123 }

/-- Witness for C10: searching a digit string of the phone number
decides identically on the two records. -/
theorem matches_independent_witness :
    advocateMatches janeAdvocate "555" = advocateMatches janeOtherPhone "555" :=
  matches_independent_of_hidden_fields janeAdvocate janeOtherPhone "555"
    rfl rfl rfl rfl rfl rfl
